import Mathlib

/-!
Verification of the GPU resource-cache and deferred-draw core declared in
src/third_party/skia/gpu/include/GrContext.h.  The repository ships only the
header: methods implemented inline there (TextureCacheEntry,
GrAutoScratchTexture, AutoRenderTarget) are embedded from that code; methods
that are merely declared are modelled from the specification, and every such
definition's doc comment says so and names the missing code.
-/

set_option maxHeartbeats 1000000

namespace GrModel

/-- Texture descriptor, after GrTextureDesc (declared in the GPU headers; the
struct body is not under src/, its relevant fields are named by the doc
comments of ScratchTexMatch, src/third_party/skia/gpu/include/GrContext.h
lines 138-152).  `isRenderTarget` and `noStencil` model the corresponding
flag bits, `aaLevel` the antialiasing level. -/
structure GrTextureDesc where
  width : Nat
  height : Nat
  format : Nat
  aaLevel : Nat
  isRenderTarget : Bool
  noStencil : Bool
  deriving DecidableEq

/-- Modelled from the spec: resource keys (the GrResourceKey type is not under
src/).  `clientKey` packs the client 64-bit TextureKey with width, height and
sampler state (spec section 3: two resources with the same client key but
different dimensions never collide); `scratchKey` is the internal key scoped
to scratch resources (spec 4.2), here carrying the descriptor it was
generated from. -/
inductive ResourceKey where
  | clientKey (key width height sampler : Nat)
  | scratchKey (desc : GrTextureDesc)
  deriving DecidableEq

/-- Modelled from the spec: a cache entry (GrResourceEntry is only forward
declared in src/): resource identity, key, descriptor, byte size and lock
count (spec section 3, CacheEntry). -/
structure GrResourceEntry where
  id : Nat
  key : ResourceKey
  desc : GrTextureDesc
  bytes : Nat
  lockCount : Nat
  deriving DecidableEq

/-- Modelled from the spec: the texture cache (GrResourceCache is only forward
declared in src/): the live entries, the eviction-eligible (LRU) list of
unlocked entry ids with the oldest at the head, the budget set by
setTextureCacheLimits (maxTextures, maxTextureBytes), and a fresh-id
counter for newly created resources. -/
structure GrResourceCache where
  entries : List GrResourceEntry
  lru : List Nat
  maxCount : Nat
  maxBytes : Nat
  nextId : Nat
  deriving DecidableEq

def totalBytes (es : List GrResourceEntry) : Nat :=
  (es.map GrResourceEntry.bytes).sum

/-- The budget test of spec section 3: total count at most maxCount and total
bytes at most maxBytes. -/
def withinBudget (es : List GrResourceEntry) (maxC maxB : Nat) : Prop :=
  es.length ≤ maxC ∧ totalBytes es ≤ maxB

instance (es : List GrResourceEntry) (maxC maxB : Nat) :
    Decidable (withinBudget es maxC maxB) := by
  unfold withinBudget; infer_instance

/-- Entries left after evicting the given ids, in order. -/
def evictIds (es : List GrResourceEntry) (ids : List Nat) : List GrResourceEntry :=
  ids.foldl (fun acc i => acc.filter (fun e => decide (e.id ≠ i))) es

/-- Modelled from the spec: the eviction loop of purgeToBudget (spec 4.1; the
GrResourceCache implementation is not under src/): evict from the LRU head,
oldest-unlocked-first, until count and bytes are within budget or no
unlocked entries remain. -/
def purgeLoop (maxC maxB : Nat) :
    List GrResourceEntry → List Nat → List GrResourceEntry × List Nat
  | es, [] => (es, [])
  | es, i :: rest =>
    if withinBudget es maxC maxB then (es, i :: rest)
    else purgeLoop maxC maxB (es.filter (fun e => decide (e.id ≠ i))) rest

/-- Modelled from the spec: purgeToBudget (spec 4.1). -/
def purgeToBudget (c : GrResourceCache) : GrResourceCache :=
  { c with
    entries := (purgeLoop c.maxCount c.maxBytes c.entries c.lru).1,
    lru := (purgeLoop c.maxCount c.maxBytes c.entries c.lru).2 }

/-- Lock one entry in place: increment its lock count and remove it from the
eviction-eligible list (spec 4.1 findAndLock, hit case). -/
def lockEntryInCache (c : GrResourceCache) (i : Nat) : GrResourceCache :=
  { c with
    entries := c.entries.map (fun e =>
      if e.id = i then { e with lockCount := e.lockCount + 1 } else e),
    lru := c.lru.filter (fun j => decide (j ≠ i)) }

/-- Modelled from the spec: GrContext::findAndLockTexture (declared at
src/third_party/skia/gpu/include/GrContext.h:120, body not under src/).
Searches by client key and dimensions; a hit locks the entry and removes it
from the eviction list (a locked entry is never hit: spec section 5, no
aliasing); a miss returns the empty token and neither allocates nor inserts
anything. -/
def findAndLockTexture (c : GrResourceCache) (key width height sampler : Nat) :
    Option Nat × GrResourceCache :=
  match c.entries.find? (fun e =>
      decide (e.key = ResourceKey.clientKey key width height sampler ∧
        e.lockCount = 0)) with
  | none => (none, c)
  | some e => (some e.id, lockEntryInCache c e.id)

/-- Modelled from the spec: ResourceCache.createAndLock (spec 4.1, body not
under src/): when the device allocation succeeds, insert a new entry under
the key with lock count 1 and immediately attempt eviction of unlocked
entries; a device allocation failure yields the empty token. -/
def createAndLock (c : GrResourceCache) (key : ResourceKey)
    (desc : GrTextureDesc) (bytes : Nat) (allocOk : Bool) :
    Option Nat × GrResourceCache :=
  if allocOk then
    (some c.nextId,
      purgeToBudget
        { c with
          entries := c.entries ++
            [{ id := c.nextId, key := key, desc := desc, bytes := bytes,
               lockCount := 1 }],
          nextId := c.nextId + 1 })
  else (none, c)

/-- Modelled from the spec: the device-side byte footprint of a texture.  The
formula lives in device code outside this repository; it is modelled as a
32-bit-per-pixel allocation, and no claim depends on the formula. -/
def textureBytes (d : GrTextureDesc) : Nat := d.width * d.height * 4

/-- Modelled from the spec: GrContext::createAndLockTexture (declared at
src/third_party/skia/gpu/include/GrContext.h:129, body not under src/). -/
def createAndLockTexture (c : GrResourceCache) (key sampler : Nat)
    (desc : GrTextureDesc) (allocOk : Bool) : Option Nat × GrResourceCache :=
  createAndLock c (ResourceKey.clientKey key desc.width desc.height sampler)
    desc (textureBytes desc) allocOk

/-- Modelled from the spec: the lock-release step of GrContext::unlockTexture
(spec 4.1 unlock): decrement the lock count; when it reaches zero the entry
becomes evictable and is appended at the LRU tail. -/
def releaseTexture (c : GrResourceCache) (i : Nat) : GrResourceCache :=
  match c.entries.find? (fun e => decide (e.id = i)) with
  | none => c
  | some e =>
    if e.lockCount = 0 then c
    else
      { c with
        entries := c.entries.map (fun x =>
          if x.id = i then { x with lockCount := x.lockCount - 1 } else x),
        lru := if e.lockCount = 1 then c.lru ++ [i] else c.lru }

/-- Modelled from the spec: GrContext::unlockTexture (declared at
src/third_party/skia/gpu/include/GrContext.h:172, body not under src/):
release the lock, then purge eagerly; spec section 9 resolves the
over-budget open question by choosing eager purge-on-unlock. -/
def unlockTexture (c : GrResourceCache) (i : Nat) : GrResourceCache :=
  purgeToBudget (releaseTexture c i)

/-- Modelled from the spec: GrContext::setTextureCacheLimits (declared at
src/third_party/skia/gpu/include/GrContext.h:208, body not under src/): set
the budget, then purge (LRU) down to it. -/
def setTextureCacheLimits (c : GrResourceCache) (maxC maxB : Nat) :
    GrResourceCache :=
  purgeToBudget { c with maxCount := maxC, maxBytes := maxB }

/-- ScratchTexMatch, src/third_party/skia/gpu/include/GrContext.h:138-152. -/
inductive ScratchTexMatch where
  | kExact_ScratchTexMatch
  | kApprox_ScratchTexMatch
  deriving DecidableEq

/-- Whether a descriptor provides a stencil: a render target whose no-stencil
flag is unset (GrContext.h:144-149). -/
def hasStencil (d : GrTextureDesc) : Bool := d.isRenderTarget && !d.noStencil

/-- Match criteria from the ScratchTexMatch doc comments (GrContext.h:138-152):
exact means the descriptor matches precisely; approximate means at least as
large in width and height, same format and aa level, render-target and
stencil capability a superset of what is requested. -/
def scratchMatches (m : ScratchTexMatch) (req actual : GrTextureDesc) : Prop :=
  match m with
  | .kExact_ScratchTexMatch => actual = req
  | .kApprox_ScratchTexMatch =>
      req.width ≤ actual.width ∧ req.height ≤ actual.height ∧
      actual.format = req.format ∧ actual.aaLevel = req.aaLevel ∧
      (req.isRenderTarget = true → actual.isRenderTarget = true) ∧
      (hasStencil req = true → hasStencil actual = true)

instance (m : ScratchTexMatch) (req actual : GrTextureDesc) :
    Decidable (scratchMatches m req actual) := by
  cases m <;> (unfold scratchMatches; infer_instance)

def isScratchKey : ResourceKey → Bool
  | .scratchKey _ => true
  | .clientKey _ _ _ _ => false

/-- The search predicate of lockScratchTexture: an unlocked scratch-keyed
entry whose descriptor satisfies the match mode. -/
def scratchPred (m : ScratchTexMatch) (desc : GrTextureDesc)
    (e : GrResourceEntry) : Bool :=
  isScratchKey e.key && decide (e.lockCount = 0) &&
    decide (scratchMatches m desc e.desc)

/-- Modelled from the spec: GrContext::lockScratchTexture (declared at
src/third_party/skia/gpu/include/GrContext.h:166, body not under src/).
Searches for an unlocked scratch entry matching the descriptor under the
given mode; on a miss it delegates to createAndLock under a scratch-scoped
key (spec 4.2).  A locked entry is never returned (GrContext.h:157: the same
texture is guaranteed not to be returned again until it is unlocked). -/
def lockScratchTexture (c : GrResourceCache) (desc : GrTextureDesc)
    (m : ScratchTexMatch) (allocOk : Bool) : Option Nat × GrResourceCache :=
  match c.entries.find? (scratchPred m desc) with
  | some e => (some e.id, lockEntryInCache c e.id)
  | none =>
    createAndLock c (ResourceKey.scratchKey desc) desc (textureBytes desc)
      allocOk

/-- One cache-mutating operation of the GrContext texture interface. -/
inductive CacheOp where
  | findTex (key width height sampler : Nat)
  | createTex (key sampler : Nat) (desc : GrTextureDesc) (allocOk : Bool)
  | lockScratch (desc : GrTextureDesc) (m : ScratchTexMatch) (allocOk : Bool)
  | unlockTex (i : Nat)
  | setLimits (maxC maxB : Nat)
  deriving DecidableEq

/-- Run one operation, returning the lock token it hands back (if any) and the
new cache. -/
def stepOp (c : GrResourceCache) : CacheOp → Option Nat × GrResourceCache
  | .findTex k w h s => findAndLockTexture c k w h s
  | .createTex k s d ok => createAndLockTexture c k s d ok
  | .lockScratch d m ok => lockScratchTexture c d m ok
  | .unlockTex i => (none, unlockTexture c i)
  | .setLimits mc mb => (none, setTextureCacheLimits c mc mb)

def applyOp (c : GrResourceCache) (op : CacheOp) : GrResourceCache :=
  (stepOp c op).2

def runOps (c : GrResourceCache) (ops : List CacheOp) : GrResourceCache :=
  ops.foldl applyOp c

def initCache (maxC maxB : Nat) : GrResourceCache :=
  { entries := [], lru := [], maxCount := maxC, maxBytes := maxB, nextId := 0 }

/-- Every entry of the cache is currently locked. -/
def allLocked (c : GrResourceCache) : Prop :=
  ∀ e ∈ c.entries, 0 < e.lockCount

instance (c : GrResourceCache) : Decidable (allLocked c) := by
  unfold allLocked; infer_instance

/-- Structural well-formedness of the cache: the eviction list holds exactly
the ids of the unlocked entries, without repetition; entry ids are unique
and below the fresh-id counter. -/
def CacheWF (c : GrResourceCache) : Prop :=
  (∀ e ∈ c.entries, e.lockCount = 0 → e.id ∈ c.lru) ∧
  (∀ i ∈ c.lru, ∃ e ∈ c.entries, e.id = i ∧ e.lockCount = 0) ∧
  c.lru.Nodup ∧
  (c.entries.map GrResourceEntry.id).Nodup ∧
  (∀ e ∈ c.entries, e.id < c.nextId)

instance (c : GrResourceCache) : Decidable (CacheWF c) := by
  unfold CacheWF; infer_instance

/-- The cache invariant of spec section 3: well-formed, and within budget
unless every entry is locked. -/
def CacheInv (c : GrResourceCache) : Prop :=
  CacheWF c ∧
    (withinBudget c.entries c.maxCount c.maxBytes ∨ allLocked c)

instance (c : GrResourceCache) : Decidable (CacheInv c) := by
  unfold CacheInv; infer_instance

/-- Some entry of the cache carries this id and is locked. -/
def entryLockedIn (c : GrResourceCache) (i : Nat) : Prop :=
  ∃ e ∈ c.entries, e.id = i ∧ 0 < e.lockCount

instance (c : GrResourceCache) (i : Nat) : Decidable (entryLockedIn c i) := by
  unfold entryLockedIn; infer_instance

/-! ### The deferred-draw scheduler -/

/-- DrawCategory, src/third_party/skia/gpu/include/GrContext.h:542-546. -/
inductive DrawCategory where
  | kBuffered_DrawCategory
  | kUnbuffered_DrawCategory
  | kText_DrawCategory
  deriving DecidableEq

/-- Modelled from the spec: the scheduler state (the GrContext draw-buffer
machinery's bodies are not under src/): the last draw's category
(fLastDrawCategory, GrContext.h:547), the pending deferred commands, the
commands the device has observed so far, and how many device flush points
(submissions of pending content) have occurred. -/
structure DrawState where
  lastDrawCategory : DrawCategory
  pending : List Nat
  device : List Nat
  flushPoints : Nat
  deriving DecidableEq

/-- Modelled from the spec: GrContext::flushDrawBuffer (declared at
src/third_party/skia/gpu/include/GrContext.h:582, body not under src/):
submit the pending deferred commands to the device in order; an empty
buffer yields no device flush point. -/
def flushDrawBuffer (s : DrawState) : DrawState :=
  if s.pending = [] then s
  else
    { s with device := s.device ++ s.pending, pending := [],
             flushPoints := s.flushPoints + 1 }

/-- Modelled from the spec: the category-change step of GrContext::prepareToDraw
(declared at src/third_party/skia/gpu/include/GrContext.h:586, body not
under src/): when the incoming draw's category differs from the last one,
flush the pending buffer first, then record the new category (spec 4.4). -/
def prepareToDraw (s : DrawState) (cat : DrawCategory) : DrawState :=
  if cat = s.lastDrawCategory then s
  else { flushDrawBuffer s with lastDrawCategory := cat }

/-- Whether a category's draws are accumulated in a deferred buffer: buffered
draws go to the in-order draw buffer, text draws to the text context's
buffer (GrContext::flushText, GrContext.h:523); unbuffered draws reach the
device directly. -/
def categoryBuffers : DrawCategory → Bool
  | .kBuffered_DrawCategory => true
  | .kText_DrawCategory => true
  | .kUnbuffered_DrawCategory => false

/-- Modelled from the spec: scheduling one draw (spec 4.4): prepare (flushing
on a category change), then append to the pending buffer or submit
directly. -/
def scheduleDraw (s : DrawState) (d : DrawCategory × Nat) : DrawState :=
  if categoryBuffers d.1 then
    { prepareToDraw s d.1 with pending := (prepareToDraw s d.1).pending ++ [d.2] }
  else
    { prepareToDraw s d.1 with device := (prepareToDraw s d.1).device ++ [d.2] }

def runDraws (s : DrawState) (ds : List (DrawCategory × Nat)) : DrawState :=
  ds.foldl scheduleDraw s

def initDraw (c0 : DrawCategory) : DrawState :=
  { lastDrawCategory := c0, pending := [], device := [], flushPoints := 0 }

/-- Scheduler-state sanity: pending commands exist only while the last draw's
category is one that buffers.  Holds for every state reachable from an
initial state. -/
def DrawWF (s : DrawState) : Prop :=
  s.pending = [] ∨ categoryBuffers s.lastDrawCategory = true

/-! ### Lock tokens and the scoped scratch holder -/

/-- Token for a texture-cache entry, after GrContext::TextureCacheEntry
(src/third_party/skia/gpu/include/GrContext.h:90-106): wraps a nullable
GrResourceEntry pointer, modelled as an optional entry id. -/
structure TextureCacheEntry where
  fEntry : Option Nat
  deriving DecidableEq

/-- TextureCacheEntry's default constructor (GrContext.h:92): fEntry(NULL). -/
def TextureCacheEntry.mkDefault : TextureCacheEntry := ⟨none⟩

/-- TextureCacheEntry's copy constructor (GrContext.h:93). -/
def TextureCacheEntry.copy (e : TextureCacheEntry) : TextureCacheEntry :=
  ⟨e.fEntry⟩

/-- TextureCacheEntry's assignment operator (GrContext.h:94-97): the target's
prior value is discarded and the source's entry reference copied. -/
def TextureCacheEntry.assign (_dst e : TextureCacheEntry) : TextureCacheEntry :=
  ⟨e.fEntry⟩

/-- TextureCacheEntry::reset (GrContext.h:99): fEntry = NULL. -/
def TextureCacheEntry.reset (_t : TextureCacheEntry) : TextureCacheEntry :=
  ⟨none⟩

/-- Modelled from the spec: TextureCacheEntry::texture() is declared at
src/third_party/skia/gpu/include/GrContext.h:98 with no body under src/;
per spec sections 7 and 9 the empty token's texture() is NULL (a miss or
allocation failure is signalled by an empty/invalid token) and otherwise it
dereferences the wrapped entry's texture.  `texOf` maps a cache-entry id to
its texture id. -/
def TextureCacheEntry.texture (t : TextureCacheEntry) (texOf : Nat → Nat) :
    Option Nat :=
  t.fEntry.map texOf

/-- Scoped scratch-texture holder, after GrAutoScratchTexture
(src/third_party/skia/gpu/include/GrContext.h:669-713).  `hasContext`
models fContext != NULL. -/
structure GrAutoScratchTexture where
  hasContext : Bool
  fEntry : TextureCacheEntry
  deriving DecidableEq

/-- GrAutoScratchTexture's default constructor (GrContext.h:671-673):
fContext(NULL). -/
def grAutoScratchInit : GrAutoScratchTexture := ⟨false, ⟨none⟩⟩

/-- The unlock a holder performs when it holds a context, shared by the
destructor (GrContext.h:683-687) and by set (GrContext.h:693-695). -/
def autoScratchUnlockHeld (a : GrAutoScratchTexture) (c : GrResourceCache) :
    GrResourceCache :=
  match a.hasContext, a.fEntry.fEntry with
  | true, some i => unlockTexture c i
  | true, none => c
  | false, _ => c

/-- GrAutoScratchTexture::set (GrContext.h:689-707), threading the cache state:
unlock any held entry, lock a scratch texture, and drop the context pointer
when acquisition failed (texture() == NULL) so the destructor will not
unlock. -/
def GrAutoScratchTexture.set (a : GrAutoScratchTexture) (c : GrResourceCache)
    (desc : GrTextureDesc) (m : ScratchTexMatch) (allocOk : Bool) :
    Option Nat × GrAutoScratchTexture × GrResourceCache :=
  match lockScratchTexture (autoScratchUnlockHeld a c) desc m allocOk with
  | (some i, c2) => (some i, ⟨true, ⟨some i⟩⟩, c2)
  | (none, c2) => (none, ⟨false, ⟨none⟩⟩, c2)

/-- GrAutoScratchTexture's destructor (GrContext.h:683-687): unlock the held
entry only when a context is held. -/
def GrAutoScratchTexture.dtor (a : GrAutoScratchTexture) (c : GrResourceCache) :
    GrResourceCache :=
  autoScratchUnlockHeld a c

/-- Modelled from the spec: the scratch-render-target acquisition step of
GrContext::prepareForOffscreenAA (declared at
src/third_party/skia/gpu/include/GrContext.h:601-605, body not under src/):
acquire one scratch render target through the scratch matcher with an
approximate match (spec 4.5 step 2); an empty token means abort. -/
def prepareForOffscreenAA (c : GrResourceCache) (desc : GrTextureDesc)
    (allocOk : Bool) : Option Nat × GrResourceCache :=
  lockScratchTexture c desc .kApprox_ScratchTexMatch allocOk

/-- Modelled from the spec: an AA-requiring draw (spec 4.5 and the section 8
scenario): scratch acquisition through the scoped holder; when it fails the
pipeline aborts and the draw still completes without AA, never surfacing an
error; on success the holder's destructor releases the scratch entry in
cleanup.  Returns (completed, usedAA) and the final cache. -/
def drawWithOffscreenAA (c : GrResourceCache) (desc : GrTextureDesc)
    (allocOk : Bool) : (Bool × Bool) × GrResourceCache :=
  match grAutoScratchInit.set c desc .kApprox_ScratchTexMatch allocOk with
  | (none, a, c2) => ((true, false), a.dtor c2)
  | (some _, a, c2) => ((true, true), a.dtor c2)

/-! ### Context loss -/

/-- A device resource as seen by the bookkeeping, with its validity flag
(GrResource::isValid(), named at src/third_party/skia/gpu/include/
GrContext.h:64). -/
structure GrResource where
  id : Nat
  valid : Bool
  deriving DecidableEq

/-- Modelled from the spec: the context's device-facing bookkeeping for
resource loss (the GrContext::contextLost and contextDestroyed bodies are
not under src/): the live resources, the log of resource ids handed to the
3D API for destruction, and whether internal state was reset. -/
structure GpuContextState where
  resources : List GrResource
  destroyCalls : List Nat
  stateReset : Bool
  deriving DecidableEq

/-- Modelled from the spec: GrContext::contextLost (declared at
src/third_party/skia/gpu/include/GrContext.h:68, body not under src/):
every resource is marked invalid rather than destroyed, the bookkeeping is
preserved for later inspection, nothing is freed in the 3D API, and
internal state is reset since the 3D API state is unknown. -/
def contextLost (s : GpuContextState) : GpuContextState :=
  { resources := s.resources.map (fun r => { r with valid := false }),
    destroyCalls := s.destroyCalls,
    stateReset := true }

/-- Modelled from the spec: GrContext::contextDestroyed (declared at
src/third_party/skia/gpu/include/GrContext.h:75, body not under src/):
similar to contextLost, but makes no attempt to reset state and no device
calls at all. -/
def contextDestroyed (s : GpuContextState) : GpuContextState :=
  { resources := s.resources.map (fun r => { r with valid := false }),
    destroyCalls := s.destroyCalls,
    stateReset := s.stateReset }

/-! ### Concrete scenario states -/

/-- Cache of the spec section 8 budget scenario: maxTextures = 2, ample byte
budget. -/
def c2s0 : GrResourceCache := initCache 2 1000000

/-- A small plain texture descriptor for the scenario. -/
def c2desc : GrTextureDesc :=
  { width := 4, height := 4, format := 0, aaLevel := 0,
    isRenderTarget := false, noStencil := true }

/-- Scenario state after create+lock A (entry id 0). -/
def c2s1 : GrResourceCache := (createAndLockTexture c2s0 1 0 c2desc true).2

/-- Scenario state after create+lock B (entry id 1). -/
def c2s2 : GrResourceCache := (createAndLockTexture c2s1 2 0 c2desc true).2

/-- Scenario state after create+lock C (entry id 2): three entries, all
locked, temporarily over budget. -/
def c2s3 : GrResourceCache := (createAndLockTexture c2s2 3 0 c2desc true).2

/-- Scenario state after unlock(A): eager purge evicts exactly A. -/
def c2s4 : GrResourceCache := unlockTexture c2s3 0

/-- The draw sequence of the spec section 8 scheduler scenario: Buffered,
Buffered, Text, Buffered, with command payloads 10, 20, 30, 40. -/
def c7seq : List (DrawCategory × Nat) :=
  [(.kBuffered_DrawCategory, 10), (.kBuffered_DrawCategory, 20),
   (.kText_DrawCategory, 30), (.kBuffered_DrawCategory, 40)]

/-- A scratch render-target descriptor used by concrete witnesses. -/
def c6desc : GrTextureDesc :=
  { width := 8, height := 8, format := 1, aaLevel := 0,
    isRenderTarget := true, noStencil := false }

/-- A cache holding one unlocked scratch entry matching `c6desc`, used by
concrete witnesses. -/
def c6cache : GrResourceCache :=
  { entries := [{ id := 0, key := .scratchKey c6desc, desc := c6desc,
                  bytes := 64, lockCount := 0 }],
    lru := [0], maxCount := 10, maxBytes := 1000, nextId := 1 }

/-! ### Helper lemmas about entry lists -/

theorem map_proj_update {α β : Type} (es : List α)
    (f : α → α) (g : α → β)
    (hf : ∀ e, g (f e) = g e) : (es.map f).map g = es.map g := by
  induction es with
  | nil => rfl
  | cons a l ih => simp [List.map_cons, hf, ih]

theorem evictIds_cons (es : List GrResourceEntry) (i : Nat) (ids : List Nat) :
    evictIds es (i :: ids) =
      evictIds (es.filter (fun e => decide (e.id ≠ i))) ids := rfl

theorem mem_evictIds (e : GrResourceEntry) :
    ∀ (ids : List Nat) (es : List GrResourceEntry),
      e ∈ evictIds es ids ↔ e ∈ es ∧ e.id ∉ ids
  | [], es => by simp [evictIds]
  | i :: ids, es => by
    rw [evictIds_cons, mem_evictIds e ids]
    simp only [List.mem_filter, decide_eq_true_eq, List.mem_cons]
    tauto

theorem evictIds_sublist : ∀ (ids : List Nat) (es : List GrResourceEntry),
    (evictIds es ids).Sublist es
  | [], es => List.Sublist.refl es
  | i :: ids, es => by
    rw [evictIds_cons]
    exact (evictIds_sublist ids _).trans (List.filter_sublist es)

/-! ### The purge loop evicts an LRU prefix and stops as soon as possible -/

theorem purgeLoop_spec (maxC maxB : Nat) :
    ∀ (l : List Nat) (es : List GrResourceEntry),
      ∃ k, k ≤ l.length ∧
        purgeLoop maxC maxB es l = (evictIds es (l.take k), l.drop k) ∧
        (withinBudget (evictIds es (l.take k)) maxC maxB ∨ k = l.length) ∧
        ∀ j < k, ¬ withinBudget (evictIds es (l.take j)) maxC maxB
  | [], es => by
    refine ⟨0, Nat.le.refl, by simp [purgeLoop, evictIds], Or.inr rfl, ?_⟩
    intro j hj
    omega
  | i :: rest, es => by
    by_cases hb : withinBudget es maxC maxB
    · refine ⟨0, Nat.zero_le _, by simp [purgeLoop, hb, evictIds],
        Or.inl (by simpa [evictIds] using hb), ?_⟩
      intro j hj
      omega
    · obtain ⟨k, hk, heq, hstop, hmin⟩ :=
        purgeLoop_spec maxC maxB rest (es.filter (fun e => decide (e.id ≠ i)))
      refine ⟨k + 1, by simpa using Nat.succ_le_succ hk, ?_, ?_, ?_⟩
      · rw [show purgeLoop maxC maxB es (i :: rest) =
            purgeLoop maxC maxB (es.filter (fun e => decide (e.id ≠ i))) rest
            from by simp [purgeLoop, hb]]
        rw [heq, List.take_succ_cons, List.drop_succ_cons, evictIds_cons]
      · rcases hstop with h | h
        · exact Or.inl (by rwa [List.take_succ_cons, evictIds_cons])
        · exact Or.inr (by simp [h])
      · intro j hj
        cases j with
        | zero => simpa [evictIds] using hb
        | succ j' =>
          rw [List.take_succ_cons, evictIds_cons]
          exact hmin j' (by omega)

theorem purgeToBudget_spec (c : GrResourceCache) :
    ∃ k, k ≤ c.lru.length ∧
      purgeToBudget c =
        { c with entries := evictIds c.entries (c.lru.take k),
                 lru := c.lru.drop k } ∧
      (withinBudget (evictIds c.entries (c.lru.take k)) c.maxCount c.maxBytes ∨
        k = c.lru.length) ∧
      ∀ j < k,
        ¬ withinBudget (evictIds c.entries (c.lru.take j)) c.maxCount c.maxBytes := by
  obtain ⟨k, hk, heq, hstop, hmin⟩ :=
    purgeLoop_spec c.maxCount c.maxBytes c.lru c.entries
  exact ⟨k, hk, by simp [purgeToBudget, heq], hstop, hmin⟩

theorem purgeToBudget_maxCount (c : GrResourceCache) :
    (purgeToBudget c).maxCount = c.maxCount := rfl

theorem purgeToBudget_maxBytes (c : GrResourceCache) :
    (purgeToBudget c).maxBytes = c.maxBytes := rfl

theorem purgeToBudget_nextId (c : GrResourceCache) :
    (purgeToBudget c).nextId = c.nextId := rfl

/-- Purging a well-formed cache keeps it well-formed and lands it within
budget unless every remaining entry is locked. -/
theorem cacheWF_purge (c : GrResourceCache) (h : CacheWF c) :
    CacheWF (purgeToBudget c) ∧
      (withinBudget (purgeToBudget c).entries c.maxCount c.maxBytes ∨
        allLocked (purgeToBudget c)) := by
  obtain ⟨hul, hsound, hnd, hend, hbound⟩ := h
  obtain ⟨k, _hk, heq, hstop, _hmin⟩ := purgeToBudget_spec c
  have hdisj : ∀ a ∈ c.lru.take k, a ∈ c.lru.drop k → False := by
    have hnd' : (c.lru.take k ++ c.lru.drop k).Nodup := by
      rwa [List.take_append_drop]
    intro a h1 h2
    exact (List.nodup_append.1 hnd').2.2 h1 h2
  have hulA : ∀ e ∈ evictIds c.entries (c.lru.take k),
      e.lockCount = 0 → e.id ∈ c.lru.drop k := by
    intro e he h0
    obtain ⟨hemem, hnotk⟩ := (mem_evictIds e _ _).1 he
    have : e.id ∈ c.lru.take k ++ c.lru.drop k := by
      rw [List.take_append_drop]
      exact hul e hemem h0
    rcases List.mem_append.1 this with h1 | h1
    · exact absurd h1 hnotk
    · exact h1
  rw [heq]
  refine ⟨⟨hulA, ?_, ?_, ?_, ?_⟩, ?_⟩
  · intro i hi
    have hilru : i ∈ c.lru := List.mem_of_mem_drop hi
    obtain ⟨e, he, hei, h0⟩ := hsound i hilru
    refine ⟨e, ?_, hei, h0⟩
    refine (mem_evictIds e _ _).2 ⟨he, ?_⟩
    intro hik
    exact hdisj e.id (hei ▸ hik) (hei ▸ hi)
  · exact hnd.sublist (List.drop_sublist k c.lru)
  · exact hend.sublist ((evictIds_sublist _ _).map GrResourceEntry.id)
  · intro e he
    exact hbound e ((evictIds_sublist _ _).mem he)
  · rcases hstop with hw | hlen
    · exact Or.inl hw
    · refine Or.inr ?_
      intro e he
      have hdropnil : c.lru.drop k = [] := by
        rw [hlen]
        exact List.drop_length c.lru
      rcases Nat.eq_zero_or_pos e.lockCount with h0 | hpos
      · have := hulA e he h0
        rw [hdropnil] at this
        exact absurd this (List.not_mem_nil _)
      · exact hpos

/-! ### Locking an entry in place -/

theorem lockEntry_ids (c : GrResourceCache) (i : Nat) :
    (lockEntryInCache c i).entries.map GrResourceEntry.id =
      c.entries.map GrResourceEntry.id :=
  map_proj_update _ _ _ (fun e => by by_cases h : e.id = i <;> simp [h])

theorem lockEntry_length (c : GrResourceCache) (i : Nat) :
    (lockEntryInCache c i).entries.length = c.entries.length := by
  simp [lockEntryInCache]

theorem lockEntry_bytes (c : GrResourceCache) (i : Nat) :
    totalBytes (lockEntryInCache c i).entries = totalBytes c.entries := by
  unfold totalBytes
  exact congrArg List.sum
    (map_proj_update _ _ _ (fun e => by by_cases h : e.id = i <;> simp [h]))

theorem cacheWF_lockEntry (c : GrResourceCache) (i : Nat) (h : CacheWF c) :
    CacheWF (lockEntryInCache c i) := by
  obtain ⟨hul, hsound, hnd, hend, hbound⟩ := h
  refine ⟨?_, ?_, ?_, ?_, ?_⟩
  · intro e he h0
    simp only [lockEntryInCache, List.mem_map] at he
    obtain ⟨x, hx, hxe⟩ := he
    by_cases hxi : x.id = i
    · rw [if_pos hxi] at hxe
      rw [← hxe] at h0
      simp at h0
    · rw [if_neg hxi] at hxe
      subst hxe
      show x.id ∈ (lockEntryInCache c i).lru
      simp only [lockEntryInCache, List.mem_filter, decide_eq_true_eq]
      exact ⟨hul x hx h0, hxi⟩
  · intro j hj
    simp only [lockEntryInCache, List.mem_filter, decide_eq_true_eq] at hj
    obtain ⟨hjl, hji⟩ := hj
    obtain ⟨e, he, hei, h0⟩ := hsound j hjl
    refine ⟨e, ?_, hei, h0⟩
    show e ∈ (lockEntryInCache c i).entries
    simp only [lockEntryInCache, List.mem_map]
    refine ⟨e, he, ?_⟩
    rw [if_neg (by rw [hei]; exact hji)]
  · exact hnd.filter _
  · rw [lockEntry_ids]
    exact hend
  · intro e he
    simp only [lockEntryInCache, List.mem_map] at he
    obtain ⟨x, hx, hxe⟩ := he
    have hid : e.id = x.id := by
      by_cases hxi : x.id = i
      · rw [if_pos hxi] at hxe
        rw [← hxe]
      · rw [if_neg hxi] at hxe
        rw [← hxe]
    show e.id < c.nextId
    rw [hid]
    exact hbound x hx

/-- Locking a hit entry (one that is present and unlocked) preserves the
cache invariant. -/
theorem cacheInv_lockHit (c : GrResourceCache) (e : GrResourceEntry)
    (hc : CacheInv c) (hmem : e ∈ c.entries) (h0 : e.lockCount = 0) :
    CacheInv (lockEntryInCache c e.id) := by
  obtain ⟨hwf, hbud⟩ := hc
  refine ⟨cacheWF_lockEntry c e.id hwf, Or.inl ?_⟩
  rcases hbud with hw | hall
  · constructor
    · rw [lockEntry_length]
      exact hw.1
    · rw [lockEntry_bytes]
      exact hw.2
  · have h1 := hall e hmem
    exact absurd h0 (by omega)

/-! ### Step equations for the operations -/

theorem findAndLockTexture_miss (c : GrResourceCache) (k w h s : Nat)
    (hfind : c.entries.find? (fun e =>
      decide (e.key = ResourceKey.clientKey k w h s ∧ e.lockCount = 0)) = none) :
    findAndLockTexture c k w h s = (none, c) := by
  unfold findAndLockTexture
  rw [hfind]

theorem findAndLockTexture_hit (c : GrResourceCache) (k w h s : Nat)
    (e : GrResourceEntry)
    (hfind : c.entries.find? (fun e =>
      decide (e.key = ResourceKey.clientKey k w h s ∧ e.lockCount = 0)) = some e) :
    findAndLockTexture c k w h s = (some e.id, lockEntryInCache c e.id) := by
  unfold findAndLockTexture
  rw [hfind]

theorem lockScratchTexture_hit (c : GrResourceCache) (d : GrTextureDesc)
    (m : ScratchTexMatch) (ok : Bool) (e : GrResourceEntry)
    (hfind : c.entries.find? (scratchPred m d) = some e) :
    lockScratchTexture c d m ok = (some e.id, lockEntryInCache c e.id) := by
  unfold lockScratchTexture
  rw [hfind]

theorem lockScratchTexture_miss (c : GrResourceCache) (d : GrTextureDesc)
    (m : ScratchTexMatch) (ok : Bool)
    (hfind : c.entries.find? (scratchPred m d) = none) :
    lockScratchTexture c d m ok =
      createAndLock c (ResourceKey.scratchKey d) d (textureBytes d) ok := by
  unfold lockScratchTexture
  rw [hfind]

theorem releaseTexture_absent (c : GrResourceCache) (i : Nat)
    (hfind : c.entries.find? (fun e => decide (e.id = i)) = none) :
    releaseTexture c i = c := by
  unfold releaseTexture
  rw [hfind]

theorem releaseTexture_unlocked (c : GrResourceCache) (i : Nat)
    (e : GrResourceEntry)
    (hfind : c.entries.find? (fun e => decide (e.id = i)) = some e)
    (h0 : e.lockCount = 0) : releaseTexture c i = c := by
  unfold releaseTexture
  rw [hfind]
  simp only [if_pos h0]

theorem releaseTexture_locked (c : GrResourceCache) (i : Nat)
    (e : GrResourceEntry)
    (hfind : c.entries.find? (fun e => decide (e.id = i)) = some e)
    (h0 : ¬ e.lockCount = 0) :
    releaseTexture c i =
      { c with
        entries := c.entries.map (fun x =>
          if x.id = i then { x with lockCount := x.lockCount - 1 } else x),
        lru := if e.lockCount = 1 then c.lru ++ [i] else c.lru } := by
  unfold releaseTexture
  rw [hfind]
  simp only [if_neg h0]

/-! ### Invariant preservation by each operation -/

theorem cacheInv_findAndLock (c : GrResourceCache) (k w h s : Nat)
    (hc : CacheInv c) : CacheInv (findAndLockTexture c k w h s).2 := by
  cases hfind : c.entries.find? (fun e =>
      decide (e.key = ResourceKey.clientKey k w h s ∧ e.lockCount = 0)) with
  | none =>
    rw [findAndLockTexture_miss c k w h s hfind]
    exact hc
  | some e =>
    rw [findAndLockTexture_hit c k w h s e hfind]
    have hmem := List.mem_of_find?_eq_some hfind
    have hprop := List.find?_some hfind
    simp only [decide_eq_true_eq] at hprop
    exact cacheInv_lockHit c e hc hmem hprop.2

theorem cacheWF_insertNew (c : GrResourceCache) (key : ResourceKey)
    (desc : GrTextureDesc) (bytes : Nat) (h : CacheWF c) :
    CacheWF { c with
      entries := c.entries ++
        [{ id := c.nextId, key := key, desc := desc, bytes := bytes,
           lockCount := 1 }],
      nextId := c.nextId + 1 } := by
  obtain ⟨hul, hsound, hnd, hend, hbound⟩ := h
  refine ⟨?_, ?_, hnd, ?_, ?_⟩
  · intro e he h0
    rcases List.mem_append.1 he with h1 | h1
    · exact hul e h1 h0
    · simp only [List.mem_singleton] at h1
      rw [h1] at h0
      simp at h0
  · intro i hi
    obtain ⟨e, he, hei, h0⟩ := hsound i hi
    exact ⟨e, List.mem_append_left _ he, hei, h0⟩
  · rw [List.map_append]
    rw [List.nodup_append]
    refine ⟨hend, by simp, ?_⟩
    intro a ha hb
    simp only [List.map_cons, List.map_nil, List.mem_singleton] at hb
    obtain ⟨e, he, hei⟩ := List.mem_map.1 ha
    have := hbound e he
    omega
  · intro e he
    rcases List.mem_append.1 he with h1 | h1
    · have := hbound e h1
      show e.id < c.nextId + 1
      omega
    · simp only [List.mem_singleton] at h1
      rw [h1]
      show c.nextId < c.nextId + 1
      omega

theorem cacheInv_createAndLock (c : GrResourceCache) (key : ResourceKey)
    (desc : GrTextureDesc) (bytes : Nat) (ok : Bool) (hc : CacheInv c) :
    CacheInv (createAndLock c key desc bytes ok).2 := by
  cases ok with
  | false => simpa [createAndLock] using hc
  | true =>
    simp only [createAndLock, if_pos]
    exact cacheWF_purge _ (cacheWF_insertNew c key desc bytes hc.1)

theorem cacheWF_release (c : GrResourceCache) (i : Nat) (h : CacheWF c) :
    CacheWF (releaseTexture c i) := by
  obtain ⟨hul, hsound, hnd, hend, hbound⟩ := h
  cases hfind : c.entries.find? (fun e => decide (e.id = i)) with
  | none =>
    rw [releaseTexture_absent c i hfind]
    exact ⟨hul, hsound, hnd, hend, hbound⟩
  | some e =>
    have hmem := List.mem_of_find?_eq_some hfind
    have hei : e.id = i := by simpa using List.find?_some hfind
    have hinj : ∀ x ∈ c.entries, x.id = e.id → x = e := fun x hx hxe =>
      List.inj_on_of_nodup_map hend hx hmem hxe
    by_cases h0 : e.lockCount = 0
    · rw [releaseTexture_unlocked c i e hfind h0]
      exact ⟨hul, hsound, hnd, hend, hbound⟩
    · rw [releaseTexture_locked c i e hfind h0]
      have hids : (c.entries.map (fun x =>
          if x.id = i then { x with lockCount := x.lockCount - 1 } else x)).map
            GrResourceEntry.id = c.entries.map GrResourceEntry.id :=
        map_proj_update _ _ _ (fun x => by by_cases hx : x.id = i <;> simp [hx])
      have hnotlru : i ∉ c.lru := by
        intro hi
        obtain ⟨x, hx, hxi, hx0⟩ := hsound i hi
        have := hinj x hx (by rw [hxi, hei])
        rw [this] at hx0
        exact h0 hx0
      refine ⟨?_, ?_, ?_, ?_, ?_⟩
      · intro e2 he2 h20
        simp only [List.mem_map] at he2
        obtain ⟨x, hx, hxe⟩ := he2
        by_cases hxi : x.id = i
        · have hxeq : x = e := hinj x hx (by rw [hxi, hei])
          rw [← hxe]
          show (if x.id = i then
              { x with lockCount := x.lockCount - 1 } else x).id ∈ _
          rw [if_pos hxi]
          show x.id ∈ (if e.lockCount = 1 then c.lru ++ [i] else c.lru)
          by_cases h1 : e.lockCount = 1
          · rw [if_pos h1, hxi]
            exact List.mem_append_right _ (by simp)
          · exfalso
            rw [← hxe] at h20
            rw [if_pos hxi] at h20
            simp only at h20
            rw [hxeq] at h20
            omega
        · rw [if_neg hxi] at hxe
          subst hxe
          have := hul x hx h20
          by_cases h1 : e.lockCount = 1
          · show x.id ∈ (if e.lockCount = 1 then c.lru ++ [i] else c.lru)
            rw [if_pos h1]
            exact List.mem_append_left _ this
          · show x.id ∈ (if e.lockCount = 1 then c.lru ++ [i] else c.lru)
            rw [if_neg h1]
            exact this
      · intro j hj
        by_cases h1 : e.lockCount = 1
        · rw [if_pos h1] at hj
          rcases List.mem_append.1 hj with hjl | hjl
          · obtain ⟨x, hx, hxj, hx0⟩ := hsound j hjl
            have hxi : x.id ≠ i := by
              intro hxi
              have := hinj x hx (by rw [hxi, hei])
              rw [this] at hx0
              exact h0 hx0
            refine ⟨x, ?_, hxj, hx0⟩
            simp only [List.mem_map]
            exact ⟨x, hx, by rw [if_neg hxi]⟩
          · simp only [List.mem_singleton] at hjl
            subst hjl
            refine ⟨{ e with lockCount := e.lockCount - 1 }, ?_, hei, by
              show e.lockCount - 1 = 0
              omega⟩
            simp only [List.mem_map]
            exact ⟨e, hmem, by rw [if_pos hei]⟩
        · rw [if_neg h1] at hj
          obtain ⟨x, hx, hxj, hx0⟩ := hsound j hj
          have hxi : x.id ≠ i := by
            intro hxi
            have := hinj x hx (by rw [hxi, hei])
            rw [this] at hx0
            exact h0 hx0
          refine ⟨x, ?_, hxj, hx0⟩
          simp only [List.mem_map]
          exact ⟨x, hx, by rw [if_neg hxi]⟩
      · by_cases h1 : e.lockCount = 1
        · rw [if_pos h1]
          rw [List.nodup_append]
          refine ⟨hnd, by simp, ?_⟩
          intro a ha hb
          simp only [List.mem_singleton] at hb
          subst hb
          exact hnotlru ha
        · rw [if_neg h1]
          exact hnd
      · rw [hids]
        exact hend
      · intro e2 he2
        simp only [List.mem_map] at he2
        obtain ⟨x, hx, hxe⟩ := he2
        have hid : e2.id = x.id := by
          by_cases hxi : x.id = i
          · rw [if_pos hxi] at hxe
            rw [← hxe]
          · rw [if_neg hxi] at hxe
            rw [← hxe]
        show e2.id < c.nextId
        rw [hid]
        exact hbound x hx

theorem cacheInv_unlock (c : GrResourceCache) (i : Nat) (hc : CacheInv c) :
    CacheInv (unlockTexture c i) :=
  cacheWF_purge _ (cacheWF_release c i hc.1)

theorem cacheInv_setLimits (c : GrResourceCache) (mc mb : Nat)
    (hc : CacheInv c) : CacheInv (setTextureCacheLimits c mc mb) := by
  have hwf : CacheWF { c with maxCount := mc, maxBytes := mb } := hc.1
  exact cacheWF_purge _ hwf

theorem cacheInv_lockScratch (c : GrResourceCache) (d : GrTextureDesc)
    (m : ScratchTexMatch) (ok : Bool) (hc : CacheInv c) :
    CacheInv (lockScratchTexture c d m ok).2 := by
  cases hfind : c.entries.find? (scratchPred m d) with
  | some e =>
    rw [lockScratchTexture_hit c d m ok e hfind]
    have hmem := List.mem_of_find?_eq_some hfind
    have hprop := List.find?_some hfind
    simp only [scratchPred, Bool.and_eq_true, decide_eq_true_eq] at hprop
    exact cacheInv_lockHit c e hc hmem hprop.1.2
  | none =>
    rw [lockScratchTexture_miss c d m ok hfind]
    exact cacheInv_createAndLock c _ d (textureBytes d) ok hc

theorem cacheInv_applyOp (c : GrResourceCache) (op : CacheOp)
    (hc : CacheInv c) : CacheInv (applyOp c op) := by
  cases op with
  | findTex k w h s => exact cacheInv_findAndLock c k w h s hc
  | createTex k s d ok => exact cacheInv_createAndLock c _ d (textureBytes d) ok hc
  | lockScratch d m ok => exact cacheInv_lockScratch c d m ok hc
  | unlockTex i => exact cacheInv_unlock c i hc
  | setLimits mc mb => exact cacheInv_setLimits c mc mb hc

theorem cacheInv_runOps (ops : List CacheOp) :
    ∀ (c : GrResourceCache), CacheInv c → CacheInv (runOps c ops) := by
  induction ops with
  | nil => exact fun c hc => hc
  | cons op rest ih =>
    intro c hc
    exact ih (applyOp c op) (cacheInv_applyOp c op hc)

theorem cacheInv_init (maxC maxB : Nat) : CacheInv (initCache maxC maxB) := by
  refine ⟨⟨?_, ?_, ?_, ?_, ?_⟩, Or.inl ?_⟩ <;>
    simp [initCache, withinBudget, totalBytes]

/-- A locked entry survives purging: eviction touches only the unlocked
entries listed in the LRU list. -/
theorem purge_keeps_locked (c : GrResourceCache) (h : CacheWF c)
    (e : GrResourceEntry) (hmem : e ∈ c.entries) (hpos : 0 < e.lockCount) :
    e ∈ (purgeToBudget c).entries := by
  obtain ⟨hul, hsound, hnd, hend, hbound⟩ := h
  obtain ⟨k, _hk, heq, _, _⟩ := purgeToBudget_spec c
  rw [heq]
  refine (mem_evictIds e _ _).2 ⟨hmem, ?_⟩
  intro hin
  have hlru : e.id ∈ c.lru := List.take_subset k c.lru hin
  obtain ⟨x, hx, hxid, hx0⟩ := hsound e.id hlru
  have hxe : x = e := List.inj_on_of_nodup_map hend hx hmem hxid
  rw [hxe] at hx0
  omega

/-! ### The claims -/

/-- C1: Budget invariant: for every sequence of cache operations starting
from a fresh cache, after any cache-mutating operation either the cache's
total entry count is at most maxTextures and total bytes at most
maxTextureBytes, or every entry currently in the cache is locked
(over-budget is tolerated only while no entry is evictable). -/
theorem C1_budget_invariant (maxC maxB : Nat) (ops : List CacheOp) :
    withinBudget (runOps (initCache maxC maxB) ops).entries
        (runOps (initCache maxC maxB) ops).maxCount
        (runOps (initCache maxC maxB) ops).maxBytes ∨
      allLocked (runOps (initCache maxC maxB) ops) :=
  (cacheInv_runOps ops (initCache maxC maxB) (cacheInv_init maxC maxB)).2

/-- C2: createAndLockTexture always succeeds in inserting the new entry with
lock count 1, even over budget; it never evicts a locked entry; and in the
spec scenario (maxTextures = 2, A, B, C created and locked), create C
yields three entries and unlock(A) with its purge evicts exactly A, leaving
B and C locked. -/
theorem C2_createAndLock_always_succeeds :
    (∀ (c : GrResourceCache) (key sampler : Nat) (desc : GrTextureDesc),
      CacheInv c →
        (createAndLockTexture c key sampler desc true).1 = some c.nextId ∧
        (∃ e ∈ (createAndLockTexture c key sampler desc true).2.entries,
          e.id = c.nextId ∧ e.lockCount = 1) ∧
        (∀ e ∈ c.entries, 0 < e.lockCount →
          e ∈ (createAndLockTexture c key sampler desc true).2.entries)) ∧
    (c2s3.entries.length = 3 ∧
      c2s3.entries.map (fun e => (e.id, e.lockCount)) =
        [(0, 1), (1, 1), (2, 1)] ∧
      c2s4.entries.map (fun e => (e.id, e.lockCount)) = [(1, 1), (2, 1)] ∧
      purgeToBudget c2s4 = c2s4) := by
  constructor
  · intro c key sampler desc hc
    have hwf1 := cacheWF_insertNew c
      (ResourceKey.clientKey key desc.width desc.height sampler) desc
      (textureBytes desc) hc.1
    refine ⟨rfl, ?_, ?_⟩
    · refine ⟨{ id := c.nextId,
                key := ResourceKey.clientKey key desc.width desc.height sampler,
                desc := desc, bytes := textureBytes desc, lockCount := 1 },
        ?_, rfl, rfl⟩
      exact purge_keeps_locked _ hwf1 _
        (List.mem_append_right _ (by simp)) (by simp)
    · intro e he hpos
      exact purge_keeps_locked _ hwf1 e (List.mem_append_left _ he) hpos
  · exact ⟨by decide, by decide, by decide, by decide⟩

/-- Closed witness for C2: at the concrete scenario cache the hypothesis is
discharged and creation indeed returns the fresh id. -/
theorem C2_createAndLock_always_succeeds_witness :
    (createAndLockTexture c2s2 3 0 c2desc true).1 = some 2 :=
  (C2_createAndLock_always_succeeds.1 c2s2 3 0 c2desc (by decide)).1

/-- C3: findAndLockTexture on a miss returns the empty token and changes
nothing (no allocation, no insertion); on a hit the found entry was
unlocked (its first lock), its lock count is incremented and it is removed
from the eviction-eligible list. -/
theorem C3_findAndLock_miss_empty_hit_locks (c : GrResourceCache)
    (k w h s : Nat) :
    ((findAndLockTexture c k w h s).1 = none →
      (findAndLockTexture c k w h s).2 = c) ∧
    (∀ i, (findAndLockTexture c k w h s).1 = some i →
      ∃ e ∈ c.entries,
        e.id = i ∧ e.lockCount = 0 ∧
        e.key = ResourceKey.clientKey k w h s ∧
        { e with lockCount := e.lockCount + 1 } ∈
          (findAndLockTexture c k w h s).2.entries ∧
        i ∉ (findAndLockTexture c k w h s).2.lru) := by
  cases hfind : c.entries.find? (fun e =>
      decide (e.key = ResourceKey.clientKey k w h s ∧ e.lockCount = 0)) with
  | none =>
    rw [findAndLockTexture_miss c k w h s hfind]
    exact ⟨fun _ => rfl, fun i hi => absurd hi (by simp)⟩
  | some e =>
    rw [findAndLockTexture_hit c k w h s e hfind]
    constructor
    · intro hnone
      exact absurd hnone (by simp)
    · intro i hi
      have hei : e.id = i := by simpa using hi
      have hmem := List.mem_of_find?_eq_some hfind
      have hprop := List.find?_some hfind
      simp only [decide_eq_true_eq] at hprop
      refine ⟨e, hmem, hei, hprop.2, hprop.1, ?_, ?_⟩
      · show _ ∈ (lockEntryInCache c e.id).entries
        simp only [lockEntryInCache, List.mem_map]
        exact ⟨e, hmem, by rw [if_pos rfl]⟩
      · rw [← hei]
        show e.id ∉ (lockEntryInCache c e.id).lru
        simp [lockEntryInCache, List.mem_filter]

/-- Closed witness for C3: at a concrete one-entry cache the hit branch fires
(the entry is returned locked) and at the empty cache the miss branch
leaves the cache untouched. -/
theorem C3_findAndLock_miss_empty_hit_locks_witness :
    (findAndLockTexture (initCache 4 100) 1 2 3 4).2 = initCache 4 100 :=
  (C3_findAndLock_miss_empty_hit_locks (initCache 4 100) 1 2 3 4).1 (by decide)

/-- C4: purgeToBudget evicts strictly in oldest-unlocked-first (LRU) order —
the evicted entries form a prefix of the eviction list, never more than
needed — stopping as soon as count and bytes are within budget or no
unlocked entries remain; setTextureCacheLimits installs the new limits and
immediately purges; and unlockTexture's release step, when the lock count
reaches 0, appends the entry at the LRU tail, so eviction order equals
unlock order. -/
theorem C4_purge_lru_order (c : GrResourceCache) :
    (∃ k, k ≤ c.lru.length ∧
      (purgeToBudget c).entries = evictIds c.entries (c.lru.take k) ∧
      (purgeToBudget c).lru = c.lru.drop k ∧
      (withinBudget (purgeToBudget c).entries c.maxCount c.maxBytes ∨
        (purgeToBudget c).lru = []) ∧
      (∀ j < k, ¬ withinBudget (evictIds c.entries (c.lru.take j))
        c.maxCount c.maxBytes)) ∧
    (∀ mc mb, setTextureCacheLimits c mc mb =
      purgeToBudget { c with maxCount := mc, maxBytes := mb }) ∧
    (∀ i, unlockTexture c i = purgeToBudget (releaseTexture c i)) ∧
    (∀ i (e : GrResourceEntry), CacheWF c → e ∈ c.entries → e.id = i →
      e.lockCount = 1 → (releaseTexture c i).lru = c.lru ++ [i]) := by
  refine ⟨?_, fun mc mb => rfl, fun i => rfl, ?_⟩
  · obtain ⟨k, hk, heq, hstop, hmin⟩ := purgeToBudget_spec c
    refine ⟨k, hk, by rw [heq], by rw [heq], ?_, hmin⟩
    rcases hstop with hw | hlen
    · exact Or.inl (by rw [heq]; exact hw)
    · refine Or.inr ?_
      rw [heq]
      show c.lru.drop k = []
      rw [hlen]
      exact List.drop_length c.lru
  · intro i e hwf hmem hei h1
    obtain ⟨_, _, _, hend, _⟩ := hwf
    cases hfind : c.entries.find? (fun x => decide (x.id = i)) with
    | none =>
      exfalso
      have := List.find?_eq_none.1 hfind e hmem
      simp [hei] at this
    | some x =>
      have hxmem := List.mem_of_find?_eq_some hfind
      have hxi : x.id = i := by simpa using List.find?_some hfind
      have hxe : x = e :=
        List.inj_on_of_nodup_map hend hxmem hmem (by rw [hxi, hei])
      have hx0 : ¬ x.lockCount = 0 := by rw [hxe, h1]; omega
      rw [releaseTexture_locked c i x hfind hx0]
      show (if x.lockCount = 1 then c.lru ++ [i] else c.lru) = c.lru ++ [i]
      rw [if_pos (by rw [hxe]; exact h1)]

/-- Closed witness for C4: in the concrete scenario cache, releasing locked
entry A (lock count 1) appends it at the LRU tail. -/
theorem C4_purge_lru_order_witness :
    (releaseTexture c2s3 0).lru = c2s3.lru ++ [0] :=
  (C4_purge_lru_order c2s3).2.2.2 0
    { id := 0, key := ResourceKey.clientKey 1 4 4 0, desc := c2desc,
      bytes := 64, lockCount := 1 }
    (by decide) (by decide) (by decide) (by decide)

/-! ### No aliasing: locked entries are never handed out again -/

theorem createAndLock_true (c : GrResourceCache) (key : ResourceKey)
    (desc : GrTextureDesc) (bytes : Nat) :
    createAndLock c key desc bytes true =
      (some c.nextId,
        purgeToBudget
          { c with
            entries := c.entries ++
              [{ id := c.nextId, key := key, desc := desc, bytes := bytes,
                 lockCount := 1 }],
            nextId := c.nextId + 1 }) := by
  simp [createAndLock]

theorem createAndLock_false (c : GrResourceCache) (key : ResourceKey)
    (desc : GrTextureDesc) (bytes : Nat) :
    createAndLock c key desc bytes false = (none, c) := by
  simp [createAndLock]

theorem stepOp_never_returns_locked (c : GrResourceCache) (i : Nat)
    (op : CacheOp) (hc : CacheInv c) (hl : entryLockedIn c i) :
    (stepOp c op).1 ≠ some i := by
  obtain ⟨e0, he0, hid0, hpos0⟩ := hl
  obtain ⟨⟨hul, hsound, hnd, hend, hbound⟩, _⟩ := hc
  have hfresh : i ≠ c.nextId := by
    have := hbound e0 he0
    omega
  cases op with
  | findTex k w h s =>
    show (findAndLockTexture c k w h s).1 ≠ some i
    cases hfind : c.entries.find? (fun e =>
        decide (e.key = ResourceKey.clientKey k w h s ∧ e.lockCount = 0)) with
    | none =>
      rw [findAndLockTexture_miss c k w h s hfind]
      simp
    | some e =>
      rw [findAndLockTexture_hit c k w h s e hfind]
      have hmem := List.mem_of_find?_eq_some hfind
      have hprop := List.find?_some hfind
      simp only [decide_eq_true_eq] at hprop
      simp only [ne_eq, Option.some.injEq]
      intro hei
      have hsame : e0 = e :=
        List.inj_on_of_nodup_map hend he0 hmem (by rw [hid0, hei])
      rw [hsame] at hpos0
      rw [hprop.2] at hpos0
      omega
  | createTex k s d ok =>
    show (createAndLockTexture c k s d ok).1 ≠ some i
    unfold createAndLockTexture
    cases ok with
    | false =>
      rw [createAndLock_false]
      simp
    | true =>
      rw [createAndLock_true]
      simp only [ne_eq, Option.some.injEq]
      intro hh
      exact hfresh hh.symm
  | lockScratch d m ok =>
    show (lockScratchTexture c d m ok).1 ≠ some i
    cases hfind : c.entries.find? (scratchPred m d) with
    | some e =>
      rw [lockScratchTexture_hit c d m ok e hfind]
      have hmem := List.mem_of_find?_eq_some hfind
      have hprop := List.find?_some hfind
      simp only [scratchPred, Bool.and_eq_true, decide_eq_true_eq] at hprop
      simp only [ne_eq, Option.some.injEq]
      intro hei
      have hsame : e0 = e :=
        List.inj_on_of_nodup_map hend he0 hmem (by rw [hid0, hei])
      rw [hsame] at hpos0
      rw [hprop.1.2] at hpos0
      omega
    | none =>
      rw [lockScratchTexture_miss c d m ok hfind]
      cases ok with
      | false =>
        rw [createAndLock_false]
        simp
      | true =>
        rw [createAndLock_true]
        simp only [ne_eq, Option.some.injEq]
        intro hh
        exact hfresh hh.symm
  | unlockTex j => simp [stepOp]
  | setLimits mc mb => simp [stepOp]

theorem lockEntry_keeps_locked (c : GrResourceCache) (j i : Nat)
    (hl : entryLockedIn c i) : entryLockedIn (lockEntryInCache c j) i := by
  obtain ⟨e, he, hei, hpos⟩ := hl
  by_cases hej : e.id = j
  · refine ⟨{ e with lockCount := e.lockCount + 1 }, ?_, hei, by
      show 0 < e.lockCount + 1
      omega⟩
    show _ ∈ (lockEntryInCache c j).entries
    simp only [lockEntryInCache, List.mem_map]
    exact ⟨e, he, by rw [if_pos hej]⟩
  · refine ⟨e, ?_, hei, hpos⟩
    show e ∈ (lockEntryInCache c j).entries
    simp only [lockEntryInCache, List.mem_map]
    exact ⟨e, he, by rw [if_neg hej]⟩

theorem purge_keeps_lockedIn (c : GrResourceCache) (i : Nat) (h : CacheWF c)
    (hl : entryLockedIn c i) : entryLockedIn (purgeToBudget c) i := by
  obtain ⟨e, he, hei, hpos⟩ := hl
  exact ⟨e, purge_keeps_locked c h e he hpos, hei, hpos⟩

theorem release_keeps_locked (c : GrResourceCache) (j i : Nat) (hj : j ≠ i)
    (_h : CacheWF c) (hl : entryLockedIn c i) :
    entryLockedIn (releaseTexture c j) i := by
  obtain ⟨e, he, hei, hpos⟩ := hl
  cases hfind : c.entries.find? (fun x => decide (x.id = j)) with
  | none =>
    rw [releaseTexture_absent c j hfind]
    exact ⟨e, he, hei, hpos⟩
  | some x =>
    by_cases h0 : x.lockCount = 0
    · rw [releaseTexture_unlocked c j x hfind h0]
      exact ⟨e, he, hei, hpos⟩
    · rw [releaseTexture_locked c j x hfind h0]
      have heij : ¬ e.id = j := by
        rw [hei]
        exact fun hh => hj hh.symm
      refine ⟨e, ?_, hei, hpos⟩
      simp only [List.mem_map]
      exact ⟨e, he, by rw [if_neg heij]⟩

theorem applyOp_keeps_locked (c : GrResourceCache) (i : Nat) (op : CacheOp)
    (hc : CacheInv c) (hl : entryLockedIn c i)
    (hop : op ≠ CacheOp.unlockTex i) : entryLockedIn (applyOp c op) i := by
  obtain ⟨hwf, _⟩ := hc
  cases op with
  | findTex k w h s =>
    show entryLockedIn (findAndLockTexture c k w h s).2 i
    cases hfind : c.entries.find? (fun e =>
        decide (e.key = ResourceKey.clientKey k w h s ∧ e.lockCount = 0)) with
    | none =>
      rw [findAndLockTexture_miss c k w h s hfind]
      exact hl
    | some e =>
      rw [findAndLockTexture_hit c k w h s e hfind]
      exact lockEntry_keeps_locked c e.id i hl
  | createTex k s d ok =>
    show entryLockedIn (createAndLockTexture c k s d ok).2 i
    unfold createAndLockTexture
    cases ok with
    | false =>
      rw [createAndLock_false]
      exact hl
    | true =>
      rw [createAndLock_true]
      refine purge_keeps_lockedIn _ i (cacheWF_insertNew c _ d _ hwf) ?_
      obtain ⟨e, he, hei, hpos⟩ := hl
      exact ⟨e, List.mem_append_left _ he, hei, hpos⟩
  | lockScratch d m ok =>
    show entryLockedIn (lockScratchTexture c d m ok).2 i
    cases hfind : c.entries.find? (scratchPred m d) with
    | some e =>
      rw [lockScratchTexture_hit c d m ok e hfind]
      exact lockEntry_keeps_locked c e.id i hl
    | none =>
      rw [lockScratchTexture_miss c d m ok hfind]
      cases ok with
      | false =>
        rw [createAndLock_false]
        exact hl
      | true =>
        rw [createAndLock_true]
        refine purge_keeps_lockedIn _ i (cacheWF_insertNew c _ d _ hwf) ?_
        obtain ⟨e, he, hei, hpos⟩ := hl
        exact ⟨e, List.mem_append_left _ he, hei, hpos⟩
  | unlockTex j =>
    have hj : j ≠ i := by
      intro hh
      rw [hh] at hop
      exact hop rfl
    show entryLockedIn (unlockTexture c j) i
    exact purge_keeps_lockedIn _ i (cacheWF_release c j hwf)
      (release_keeps_locked c j i hj hwf hl)
  | setLimits mc mb =>
    show entryLockedIn (setTextureCacheLimits c mc mb) i
    have hwf2 : CacheWF { c with maxCount := mc, maxBytes := mb } := hwf
    refine purge_keeps_lockedIn _ i hwf2 ?_
    obtain ⟨e, he, hei, hpos⟩ := hl
    exact ⟨e, he, hei, hpos⟩

/-- C5: no aliasing of locked entries: starting from any well-formed cache in
which entry `i` is locked, a sequence of operations that never unlocks `i`
keeps `i` locked, and no lock operation along the way (findAndLockTexture,
createAndLockTexture or lockScratchTexture) ever returns `i` — a second
lock attempt for an already-locked entry misses or yields a different
resource. -/
theorem C5_no_aliasing (c : GrResourceCache) (i : Nat) (ops : List CacheOp)
    (hc : CacheInv c) (hl : entryLockedIn c i)
    (hops : CacheOp.unlockTex i ∉ ops) :
    entryLockedIn (runOps c ops) i ∧
    ∀ pre op suf, ops = pre ++ op :: suf →
      (stepOp (runOps c pre) op).1 ≠ some i := by
  induction ops generalizing c with
  | nil =>
    refine ⟨hl, ?_⟩
    intro pre op suf hpre
    exact absurd hpre (by simp)
  | cons o rest ih =>
    have ho : o ≠ CacheOp.unlockTex i := by
      intro hh
      exact hops (by rw [hh]; exact List.mem_cons_self _ _)
    have hrest : CacheOp.unlockTex i ∉ rest := fun hh =>
      hops (List.mem_cons_of_mem _ hh)
    have hc2 := cacheInv_applyOp c o hc
    have hl2 := applyOp_keeps_locked c i o hc hl ho
    obtain ⟨ha, hb⟩ := ih (applyOp c o) hc2 hl2 hrest
    refine ⟨ha, ?_⟩
    intro pre op suf hpre
    cases pre with
    | nil =>
      have h1 : o = op ∧ rest = suf := by simpa using hpre
      rw [← h1.1]
      show (stepOp c o).1 ≠ some i
      exact stepOp_never_returns_locked c i o hc hl
    | cons p pre2 =>
      have h1 : o = p ∧ rest = pre2 ++ op :: suf := by simpa using hpre
      show (stepOp (runOps (applyOp c p) pre2) op).1 ≠ some i
      rw [← h1.1]
      exact hb pre2 op suf h1.2

/-- Closed witness for C5: in the scenario cache all of A, B, C are locked;
a findAndLockTexture with A's exact key misses rather than aliasing A. -/
theorem C5_no_aliasing_witness :
    (stepOp (runOps c2s3 []) (CacheOp.findTex 1 4 4 0)).1 ≠ some 0 :=
  (C5_no_aliasing c2s3 0 [CacheOp.findTex 1 4 4 0] (by decide) (by decide)
    (by decide)).2 [] (CacheOp.findTex 1 4 4 0) [] rfl

/-! ### Scratch matching -/

/-- Any texture handed out by lockScratchTexture satisfies the requested
match criteria: a hit was checked by the search predicate, and a miss
creates a texture with the requested descriptor itself. -/
theorem lockScratch_result_matches (c : GrResourceCache) (d : GrTextureDesc)
    (m : ScratchTexMatch) (ok : Bool) (i : Nat) (hc : CacheInv c)
    (hres : (lockScratchTexture c d m ok).1 = some i) :
    ∃ e ∈ (lockScratchTexture c d m ok).2.entries,
      e.id = i ∧ scratchMatches m d e.desc := by
  cases hfind : c.entries.find? (scratchPred m d) with
  | some e =>
    rw [lockScratchTexture_hit c d m ok e hfind] at hres ⊢
    have hei : e.id = i := by simpa using hres
    have hmem := List.mem_of_find?_eq_some hfind
    have hprop := List.find?_some hfind
    simp only [scratchPred, Bool.and_eq_true, decide_eq_true_eq] at hprop
    refine ⟨{ e with lockCount := e.lockCount + 1 }, ?_, hei, hprop.2⟩
    show _ ∈ (lockEntryInCache c e.id).entries
    simp only [lockEntryInCache, List.mem_map]
    exact ⟨e, hmem, by rw [if_pos rfl]⟩
  | none =>
    rw [lockScratchTexture_miss c d m ok hfind] at hres ⊢
    cases ok with
    | false =>
      rw [createAndLock_false] at hres
      exact absurd hres (by simp)
    | true =>
      rw [createAndLock_true] at hres ⊢
      have hi : c.nextId = i := by simpa using hres
      have hwf1 := cacheWF_insertNew c (ResourceKey.scratchKey d) d
        (textureBytes d) hc.1
      refine ⟨{ id := c.nextId, key := ResourceKey.scratchKey d, desc := d,
                bytes := textureBytes d, lockCount := 1 }, ?_, hi, ?_⟩
      · exact purge_keeps_locked _ hwf1 _
          (List.mem_append_right _ (by simp)) (by simp)
      · cases m with
        | kExact_ScratchTexMatch => rfl
        | kApprox_ScratchTexMatch =>
          exact ⟨Nat.le.refl, Nat.le.refl, rfl, rfl, fun hh => hh, fun hh => hh⟩

/-- C6: lockScratchTexture with an exact match returns only a texture whose
descriptor (dimensions, format, aa level, render-target-ness and stencil
requirement) matches precisely; with an approximate match only one at
least as large in both dimensions, of the same format and aa level, whose
render-target and stencil capability is a superset of the request; and a
miss under either mode creates the resource under a scratch-scoped key
that never collides with any client texture key. -/
theorem C6_scratch_match (c : GrResourceCache) (d : GrTextureDesc) (ok : Bool)
    (hc : CacheInv c) :
    (∀ i, (lockScratchTexture c d .kExact_ScratchTexMatch ok).1 = some i →
      ∃ e ∈ (lockScratchTexture c d .kExact_ScratchTexMatch ok).2.entries,
        e.id = i ∧ e.desc = d) ∧
    (∀ i, (lockScratchTexture c d .kApprox_ScratchTexMatch ok).1 = some i →
      ∃ e ∈ (lockScratchTexture c d .kApprox_ScratchTexMatch ok).2.entries,
        e.id = i ∧ d.width ≤ e.desc.width ∧ d.height ≤ e.desc.height ∧
          e.desc.format = d.format ∧ e.desc.aaLevel = d.aaLevel ∧
          (d.isRenderTarget = true → e.desc.isRenderTarget = true) ∧
          (hasStencil d = true → hasStencil e.desc = true)) ∧
    (∀ m, c.entries.find? (scratchPred m d) = none → ok = true →
      ∃ e ∈ (lockScratchTexture c d m ok).2.entries,
        e.id = c.nextId ∧ e.key = ResourceKey.scratchKey d ∧ e.desc = d) ∧
    (∀ (d2 : GrTextureDesc) (k w h s : Nat),
      ResourceKey.scratchKey d2 ≠ ResourceKey.clientKey k w h s) := by
  refine ⟨?_, ?_, ?_, ?_⟩
  · intro i hres
    obtain ⟨e, he, hei, hm⟩ :=
      lockScratch_result_matches c d .kExact_ScratchTexMatch ok i hc hres
    exact ⟨e, he, hei, hm⟩
  · intro i hres
    obtain ⟨e, he, hei, hm⟩ :=
      lockScratch_result_matches c d .kApprox_ScratchTexMatch ok i hc hres
    exact ⟨e, he, hei, hm.1, hm.2.1, hm.2.2.1, hm.2.2.2.1, hm.2.2.2.2.1,
      hm.2.2.2.2.2⟩
  · intro m hfind hok
    rw [hok, lockScratchTexture_miss c d m true hfind, createAndLock_true]
    have hwf1 := cacheWF_insertNew c (ResourceKey.scratchKey d) d
      (textureBytes d) hc.1
    refine ⟨{ id := c.nextId, key := ResourceKey.scratchKey d, desc := d,
              bytes := textureBytes d, lockCount := 1 }, ?_, rfl, rfl, rfl⟩
    exact purge_keeps_locked _ hwf1 _
      (List.mem_append_right _ (by simp)) (by simp)
  · intro d2 k w h s hh
    exact ResourceKey.noConfusion hh

/-- Closed witness for C6: on a cache holding one matching unlocked scratch
entry, the exact-mode lock returns it with the precise descriptor. -/
theorem C6_scratch_match_witness :
    ∃ e ∈ (lockScratchTexture c6cache c6desc
        .kExact_ScratchTexMatch false).2.entries,
      e.id = 0 ∧ e.desc = c6desc :=
  (C6_scratch_match c6cache c6desc false (by decide)).1 0 (by decide)

/-! ### Scheduler ordering -/

theorem flushDrawBuffer_pending (s : DrawState) :
    (flushDrawBuffer s).pending = [] := by
  unfold flushDrawBuffer
  by_cases h : s.pending = []
  · rw [if_pos h]
    exact h
  · rw [if_neg h]

theorem flushDrawBuffer_device (s : DrawState) :
    (flushDrawBuffer s).device = s.device ++ s.pending := by
  unfold flushDrawBuffer
  by_cases h : s.pending = []
  · rw [if_pos h, h, List.append_nil]
  · rw [if_neg h]

theorem prepareToDraw_order (s : DrawState) (cat : DrawCategory) :
    (prepareToDraw s cat).device ++ (prepareToDraw s cat).pending =
      s.device ++ s.pending := by
  unfold prepareToDraw
  by_cases h : cat = s.lastDrawCategory
  · rw [if_pos h]
  · rw [if_neg h]
    show (flushDrawBuffer s).device ++ (flushDrawBuffer s).pending = _
    rw [flushDrawBuffer_device, flushDrawBuffer_pending, List.append_nil]

theorem prepareToDraw_lastCat (s : DrawState) (cat : DrawCategory) :
    (prepareToDraw s cat).lastDrawCategory = cat := by
  unfold prepareToDraw
  by_cases h : cat = s.lastDrawCategory
  · rw [if_pos h]
    exact h.symm
  · rw [if_neg h]

theorem prepareToDraw_pending_unbuffered (s : DrawState) (cat : DrawCategory)
    (hwf : DrawWF s) (hb : categoryBuffers cat = false) :
    (prepareToDraw s cat).pending = [] := by
  unfold prepareToDraw
  by_cases h : cat = s.lastDrawCategory
  · rw [if_pos h]
    rcases hwf with hp | hcat
    · exact hp
    · rw [← h, hb] at hcat
      cases hcat
  · rw [if_neg h]
    exact flushDrawBuffer_pending s

theorem scheduleDraw_wf_order (s : DrawState) (d : DrawCategory × Nat)
    (hwf : DrawWF s) :
    DrawWF (scheduleDraw s d) ∧
      (scheduleDraw s d).device ++ (scheduleDraw s d).pending =
        s.device ++ s.pending ++ [d.2] := by
  unfold scheduleDraw
  cases hb : categoryBuffers d.1 with
  | true =>
    rw [if_pos rfl]
    constructor
    · refine Or.inr ?_
      show categoryBuffers (prepareToDraw s d.1).lastDrawCategory = true
      rw [prepareToDraw_lastCat]
      exact hb
    · show (prepareToDraw s d.1).device ++
        ((prepareToDraw s d.1).pending ++ [d.2]) = _
      rw [← List.append_assoc, prepareToDraw_order]
  | false =>
    rw [if_neg Bool.false_ne_true]
    have hpend := prepareToDraw_pending_unbuffered s d.1 hwf hb
    constructor
    · exact Or.inl hpend
    · show ((prepareToDraw s d.1).device ++ [d.2]) ++
        (prepareToDraw s d.1).pending = _
      rw [hpend, List.append_nil, ← prepareToDraw_order s d.1, hpend,
        List.append_nil]

theorem runDraws_wf_order (ds : List (DrawCategory × Nat)) :
    ∀ (s : DrawState), DrawWF s →
      DrawWF (runDraws s ds) ∧
        (runDraws s ds).device ++ (runDraws s ds).pending =
          s.device ++ s.pending ++ ds.map Prod.snd := by
  induction ds with
  | nil =>
    intro s h
    exact ⟨h, by simp [runDraws]⟩
  | cons d rest ih =>
    intro s h
    obtain ⟨hwf1, hord1⟩ := scheduleDraw_wf_order s d h
    obtain ⟨hwf2, hord2⟩ := ih (scheduleDraw s d) hwf1
    refine ⟨hwf2, ?_⟩
    show (runDraws (scheduleDraw s d) rest).device ++
        (runDraws (scheduleDraw s d) rest).pending =
      s.device ++ s.pending ++ ((d :: rest).map Prod.snd)
    rw [hord2, hord1]
    simp

/-- C7: DrawScheduler ordering: a draw whose category differs from the last
draw's flushes the pending buffer to the device before proceeding; a
Buffered draw following a Buffered draw is appended without a flush; the
device observes all commands in issuance order; and the sequence Buffered,
Buffered, Text, Buffered produces exactly two device flush points — before
the Text draw and before the final Buffered draw. -/
theorem C7_draw_scheduler :
    (∀ (s : DrawState) (cat : DrawCategory), cat ≠ s.lastDrawCategory →
      (prepareToDraw s cat).pending = [] ∧
      (prepareToDraw s cat).device = s.device ++ s.pending) ∧
    (∀ (s : DrawState) (cmd : Nat),
      s.lastDrawCategory = DrawCategory.kBuffered_DrawCategory →
      scheduleDraw s (DrawCategory.kBuffered_DrawCategory, cmd) =
        { s with pending := s.pending ++ [cmd] }) ∧
    (∀ (c0 : DrawCategory) (ds : List (DrawCategory × Nat)),
      (flushDrawBuffer (runDraws (initDraw c0) ds)).device =
        ds.map Prod.snd) ∧
    (∀ c0 : DrawCategory,
      (runDraws (initDraw c0) (c7seq.take 2)).flushPoints = 0 ∧
      (runDraws (initDraw c0) (c7seq.take 3)).flushPoints = 1 ∧
      (runDraws (initDraw c0) (c7seq.take 3)).device = [10, 20] ∧
      (runDraws (initDraw c0) c7seq).flushPoints = 2 ∧
      (runDraws (initDraw c0) c7seq).device = [10, 20, 30] ∧
      (flushDrawBuffer (runDraws (initDraw c0) c7seq)).device =
        [10, 20, 30, 40]) := by
  refine ⟨?_, ?_, ?_, ?_⟩
  · intro s cat hne
    unfold prepareToDraw
    rw [if_neg hne]
    exact ⟨flushDrawBuffer_pending s, flushDrawBuffer_device s⟩
  · intro s cmd hlast
    unfold scheduleDraw
    rw [if_pos (show categoryBuffers
      (DrawCategory.kBuffered_DrawCategory, cmd).1 = true from rfl)]
    unfold prepareToDraw
    rw [if_pos (show (DrawCategory.kBuffered_DrawCategory, cmd).1 =
      s.lastDrawCategory from hlast.symm)]
  · intro c0 ds
    obtain ⟨_, hord⟩ := runDraws_wf_order ds (initDraw c0) (Or.inl rfl)
    rw [flushDrawBuffer_device, hord]
    simp [initDraw]
  · intro c0
    cases c0 <;> exact ⟨by decide, by decide, by decide, by decide, by decide,
      by decide⟩

/-- Closed witness for C7: a Buffered draw in a Buffered-last state is
appended to the pending buffer without any flush. -/
theorem C7_draw_scheduler_witness :
    scheduleDraw (initDraw DrawCategory.kBuffered_DrawCategory)
        (DrawCategory.kBuffered_DrawCategory, 5) =
      { initDraw DrawCategory.kBuffered_DrawCategory with
          pending :=
            (initDraw DrawCategory.kBuffered_DrawCategory).pending ++ [5] } :=
  C7_draw_scheduler.2.1 (initDraw DrawCategory.kBuffered_DrawCategory) 5 rfl

/-! ### Scratch-acquisition failure is soft and leaks nothing -/

theorem lockScratchTexture_none_unchanged (c : GrResourceCache)
    (d : GrTextureDesc) (m : ScratchTexMatch) (ok : Bool)
    (h : (lockScratchTexture c d m ok).1 = none) :
    (lockScratchTexture c d m ok).2 = c := by
  cases hfind : c.entries.find? (scratchPred m d) with
  | some e =>
    rw [lockScratchTexture_hit c d m ok e hfind] at h
    exact absurd h (by simp)
  | none =>
    rw [lockScratchTexture_miss c d m ok hfind] at h ⊢
    cases ok with
    | true =>
      rw [createAndLock_true] at h
      exact absurd h (by simp)
    | false =>
      rw [createAndLock_false]

theorem autoScratchUnlockHeld_init (c : GrResourceCache) :
    autoScratchUnlockHeld grAutoScratchInit c = c := rfl

theorem set_step (a : GrAutoScratchTexture) (c : GrResourceCache)
    (d : GrTextureDesc) (m : ScratchTexMatch) (ok : Bool) :
    GrAutoScratchTexture.set a c d m ok =
      match lockScratchTexture (autoScratchUnlockHeld a c) d m ok with
      | (some i, c2) => (some i, ⟨true, ⟨some i⟩⟩, c2)
      | (none, c2) => (none, ⟨false, ⟨none⟩⟩, c2) := rfl

/-- C8: if scratch acquisition fails during offscreen-AA setup, the draw
still completes without AA, no error is surfaced, the cache is untouched
(no partially-locked scratch entry is leaked); the scoped scratch holder
drops its context on failure so its destructor performs no unlock, and on
success its destructor unlocks exactly the held entry. -/
theorem C8_scratch_failure_soft (c : GrResourceCache) (desc : GrTextureDesc) :
    (∀ ok, ((drawWithOffscreenAA c desc ok).1).1 = true) ∧
    (∀ ok, (lockScratchTexture c desc .kApprox_ScratchTexMatch ok).1 = none →
      drawWithOffscreenAA c desc ok = ((true, false), c)) ∧
    (∀ (a : GrAutoScratchTexture) (m : ScratchTexMatch) (ok : Bool),
      (a.set c desc m ok).1 = none →
        (a.set c desc m ok).2.1.hasContext = false ∧
        ∀ c2, ((a.set c desc m ok).2.1).dtor c2 = c2) ∧
    (∀ (a : GrAutoScratchTexture) (m : ScratchTexMatch) (ok : Bool) (i : Nat),
      (a.set c desc m ok).1 = some i →
        (a.set c desc m ok).2.1 = ⟨true, ⟨some i⟩⟩ ∧
        ∀ c2, ((a.set c desc m ok).2.1).dtor c2 = unlockTexture c2 i) := by
  refine ⟨?_, ?_, ?_, ?_⟩
  · intro ok
    unfold drawWithOffscreenAA
    rw [set_step, autoScratchUnlockHeld_init]
    cases hres : lockScratchTexture c desc .kApprox_ScratchTexMatch ok with
    | mk r c2 => cases r <;> rfl
  · intro ok hnone
    unfold drawWithOffscreenAA
    rw [set_step, autoScratchUnlockHeld_init]
    have h2 := lockScratchTexture_none_unchanged c desc
      .kApprox_ScratchTexMatch ok hnone
    cases hres : lockScratchTexture c desc .kApprox_ScratchTexMatch ok with
    | mk r c2 =>
      rw [hres] at hnone h2
      cases r with
      | some i => exact absurd hnone (by simp)
      | none =>
        show ((true, false), GrAutoScratchTexture.dtor ⟨false, ⟨none⟩⟩ c2) = _
        rw [show GrAutoScratchTexture.dtor ⟨false, ⟨none⟩⟩ c2 = c2 from rfl]
        rw [show c2 = c from h2]
  · intro a m ok hnone
    rw [set_step] at hnone ⊢
    cases hres : lockScratchTexture (autoScratchUnlockHeld a c) desc m ok with
    | mk r c2 =>
      rw [hres] at hnone
      cases r with
      | some i => exact Option.noConfusion hnone
      | none => exact ⟨rfl, fun c3 => rfl⟩
  · intro a m ok i hsome
    rw [set_step] at hsome ⊢
    cases hres : lockScratchTexture (autoScratchUnlockHeld a c) desc m ok with
    | mk r c2 =>
      rw [hres] at hsome
      cases r with
      | none => exact Option.noConfusion hsome
      | some j =>
        have hij : j = i := Option.some.inj hsome
        rw [hij]
        exact ⟨rfl, fun c3 => rfl⟩

/-- Closed witness for C8: on an empty cache with device allocation refused,
the AA draw completes without AA and the cache is returned untouched. -/
theorem C8_scratch_failure_soft_witness :
    drawWithOffscreenAA (initCache 4 100) c6desc false =
      ((true, false), initCache 4 100) :=
  (C8_scratch_failure_soft (initCache 4 100) c6desc).2.1 false (by decide)

/-- C9: after contextLost all resources are marked invalid rather than
destroyed while the bookkeeping is preserved for inspection, and no
resource is handed to the device for destruction; contextDestroyed
behaves identically on resources, keeps the destruction log unchanged as
well, and additionally makes no state-reset attempt. -/
theorem C9_context_loss :
    (∀ s : GpuContextState,
      (contextLost s).destroyCalls = s.destroyCalls ∧
      (contextLost s).resources.map GrResource.id =
        s.resources.map GrResource.id ∧
      (contextLost s).resources.all (fun r => !r.valid) = true) ∧
    (∀ s : GpuContextState,
      (contextDestroyed s).resources = (contextLost s).resources ∧
      (contextDestroyed s).destroyCalls = s.destroyCalls ∧
      (contextDestroyed s).stateReset = s.stateReset ∧
      (contextDestroyed s).resources.all (fun r => !r.valid) = true) := by
  constructor
  · intro s
    refine ⟨rfl, ?_, ?_⟩
    · exact map_proj_update _ _ _ (fun r => rfl)
    · simp only [contextLost, List.all_eq_true, List.mem_map]
      rintro r ⟨x, hx, rfl⟩
      rfl
  · intro s
    refine ⟨rfl, rfl, rfl, ?_⟩
    simp only [contextDestroyed, List.all_eq_true, List.mem_map]
    rintro r ⟨x, hx, rfl⟩
    rfl

/-- C10: a default-constructed TextureCacheEntry is the empty token (its
texture() is NULL), copy construction and assignment copy the wrapped
cache-entry reference so the copy denotes the same lock token, reset()
returns any token to the empty state, and a token's texture() is NULL
exactly when it is the empty token. -/
theorem C10_texture_cache_entry (texOf : Nat → Nat) :
    TextureCacheEntry.mkDefault.texture texOf = none ∧
    (∀ e : TextureCacheEntry, e.copy.fEntry = e.fEntry) ∧
    (∀ d e : TextureCacheEntry, (d.assign e).fEntry = e.fEntry) ∧
    (∀ t : TextureCacheEntry, t.reset = TextureCacheEntry.mkDefault) ∧
    (∀ t : TextureCacheEntry, t.texture texOf = none ↔ t.fEntry = none) := by
  refine ⟨rfl, fun e => rfl, fun d e => rfl, fun t => rfl, ?_⟩
  intro t
  cases h : t.fEntry with
  | none => simp [TextureCacheEntry.texture, h]
  | some i => simp [TextureCacheEntry.texture, h]

end GrModel
